import Mathlib

/-!
Verification of the timeline editing and playback synchronization engine of a
browser-based video/audio editor.  The definitions below are a shallow
embedding of the TypeScript source: clip geometry uses exact rationals for the
source's floating-point seconds, element/DOM state is made explicit, and each
React handler becomes a pure state-transition function.
-/

namespace EditVideoAudio

/-- Media kind of a track or clip (`'video' | 'audio'` in `types.ts`). -/
inductive MediaKind where
  | video
  | audio
deriving DecidableEq, Repr

/-- Record `Clip` from `types.ts`.  Time fields are seconds; `totalDuration` is the
length of the underlying source media.  The `file`/`thumbnail` fields carry no
editing semantics and are dropped; `source` is the object URL string. -/
structure Clip where
  id : Nat
  trackId : Nat
  source : String
  kind : MediaKind
  start : ℚ
  duration : ℚ
  offset : ℚ
  totalDuration : ℚ
  name : String
  width : Option Nat
  height : Option Nat
deriving DecidableEq, Repr

/-- Constant `SNAP_GRID = 0.02` from `Timeline`. -/
def SNAP_GRID : ℚ := 1/50

/-- JavaScript `Math.round`: round half towards positive infinity. -/
def jsRound (x : ℚ) : ℤ := ⌊x + 1/2⌋

/-- Quantization `Math.round(x / SNAP_GRID) * SNAP_GRID`, the grid snap used by the
drag handlers and the seek handler. -/
def snap (x : ℚ) : ℚ := (jsRound (x / SNAP_GRID) : ℚ) * SNAP_GRID

/-- The `'move'` branch of `Timeline.handleMouseMove` followed by
`handleClipUpdate` on the dragged clip: for a single mousedown→mousemove
gesture the drag state's `originalStart` is the clip's current `start`. -/
def applyMove (c : Clip) (deltaSeconds : ℚ) : Clip :=
  let rawNewStart := max 0 (c.start + deltaSeconds)
  let newStart := snap rawNewStart
  { c with start := newStart }

/-- The `'trim-start'` branch of `Timeline.handleMouseMove` followed by
`handleClipUpdate`; drag-state originals coincide with the clip's fields. -/
def applyTrimStart (c : Clip) (deltaSeconds : ℚ) : Clip :=
  let rawNewStart := c.start + deltaSeconds
  let newStart := snap rawNewStart
  let finalDelta0 := newStart - c.start
  let maxDelta := c.duration - 1/10
  let minDelta := -c.offset
  let finalDelta := min (max finalDelta0 minDelta) maxDelta
  { c with
      start := c.start + finalDelta
      duration := c.duration - finalDelta
      offset := c.offset + finalDelta }

/-- The `'trim-end'` branch of `Timeline.handleMouseMove` followed by
`handleClipUpdate`; drag-state originals coincide with the clip's fields. -/
def applyTrimEnd (c : Clip) (deltaSeconds : ℚ) : Clip :=
  let rawNewDuration := c.duration + deltaSeconds
  let newDuration0 := snap rawNewDuration
  let newDuration := max (1/10) newDuration0
  if c.offset + newDuration ≤ c.totalDuration then
    { c with duration := newDuration }
  else
    { c with duration := c.totalDuration - c.offset }

/-- Handler `App.handleClipUpdate`: apply an update to the clip with the given id,
leaving every other clip untouched. -/
def handleClipUpdate (clips : List Clip) (clipId : Nat) (f : Clip → Clip) : List Clip :=
  clips.map fun c => if c.id = clipId then f c else c

/-- The editing-relevant state of the `App` component: the clip set, the
selection, the single-slot clipboard (`clipboardRef`), the playhead
(`currentTime`), and a counter modelling `generateId` (a fresh id is one never
handed out before). -/
structure EditorState where
  clips : List Clip
  selectedClipId : Option Nat
  clipboard : Option Clip
  currentTime : ℚ
  nextId : Nat
deriving Repr

/-- Lookup `clips.find(c => c.id === clipId)`. -/
def findClip (clips : List Clip) (clipId : Nat) : Option Clip :=
  clips.find? fun c => c.id == clipId

/-- Handler `App.handleSplitClip`: split the selected clip at the playhead.  Returns
the state unchanged when nothing is selected, the selected id is stale, or the
playhead is within `0.05` of either edge of the clip. -/
def handleSplitClip (s : EditorState) : EditorState :=
  match s.selectedClipId with
  | none => s
  | some selId =>
    match findClip s.clips selId with
    | none => s
    | some clip =>
      if s.currentTime ≤ clip.start + 1/20 ∨ clip.start + clip.duration - 1/20 ≤ s.currentTime then
        s
      else
        let splitPointRelativeToClip := s.currentTime - clip.start
        let clip1 : Clip := { clip with
          id := s.nextId
          duration := splitPointRelativeToClip }
        let clip2 : Clip := { clip with
          id := s.nextId + 1
          start := s.currentTime
          duration := clip.duration - splitPointRelativeToClip
          offset := clip.offset + splitPointRelativeToClip }
        { s with
            clips := (s.clips.filter fun c => ! (c.id == clip.id)) ++ [clip1, clip2]
            selectedClipId := some clip2.id
            nextId := s.nextId + 2 }

/-- Handler `App.handleDeleteClip`: remove the clip and clear a selection that
referenced it. -/
def handleDeleteClip (s : EditorState) (clipId : Nat) : EditorState :=
  { s with
      clips := s.clips.filter fun c => ! (c.id == clipId)
      selectedClipId := if s.selectedClipId = some clipId then none else s.selectedClipId }

/-- The copy branch of `App.handleKeyDown` (Ctrl/Cmd-C): store the selected
clip in the clipboard slot. -/
def copyClip (s : EditorState) : EditorState :=
  match s.selectedClipId with
  | none => s
  | some selId =>
    match findClip s.clips selId with
    | none => s
    | some clip => { s with clipboard := some clip }

/-- The paste position computed in the paste branch of `App.handleKeyDown`:
the end of the selected clip if one is selected, else the playhead. -/
def pasteStart (s : EditorState) : ℚ :=
  match s.selectedClipId.bind fun selId => findClip s.clips selId with
  | some selectedClip => selectedClip.start + selectedClip.duration
  | none => s.currentTime

/-- The paste branch of `App.handleKeyDown` (Ctrl/Cmd-V): duplicate the
clipboard clip with a fresh id, placed after the selected clip if one is
selected, else at the playhead; the new clip becomes the selection. -/
def pasteClip (s : EditorState) : EditorState :=
  match s.clipboard with
  | none => s
  | some cb =>
    let newClip : Clip := { cb with id := s.nextId, start := pasteStart s }
    { s with
        clips := s.clips ++ [newClip]
        selectedClipId := some newClip.id
        nextId := s.nextId + 1 }

/-- Largest `start + duration` in a list, `none` on the empty list.  This is
what the `sort(...).pop()` in `addClipFromFile` reads off the last clip of the
track: only the maximal end time is used. -/
def maxClipEnd? (cs : List Clip) : Option ℚ :=
  match cs.map (fun c => c.start + c.duration) with
  | [] => none
  | e :: es => some (es.foldl max e)

/-- The `setClips` updater of `App.addClipFromFile` after a successful
metadata probe: insert a clip after the last clip on the target track
(`+ 0.5s`), trimmed to at most 10 s of the probed media duration. -/
def addClipFromFile (s : EditorState) (trackId : Nat) (kind : MediaKind)
    (fileName fileSource : String) (mediaDuration : ℚ)
    (w h : Option Nat) : EditorState :=
  let trackClips := s.clips.filter fun c => c.trackId == trackId
  let start : ℚ :=
    match maxClipEnd? trackClips with
    | some lastEnd => lastEnd + 1/2
    | none => 0
  let newClip : Clip := {
    id := s.nextId
    trackId := trackId
    source := fileSource
    kind := kind
    start := start
    duration := min mediaDuration 10
    offset := 0
    totalDuration := mediaDuration
    name := fileName
    width := w
    height := h }
  { s with clips := s.clips ++ [newClip], nextId := s.nextId + 1 }

/-- The `Clear All` toolbar button: `setClips([])` (selection untouched). -/
def clearAllClips (s : EditorState) : EditorState :=
  { s with clips := [] }

/-- The auto-adjust-total-duration effect of `App`:
`clips.reduce((max, clip) => Math.max(max, clip.start + clip.duration), 0)`,
or the 30 s default when that maximum is not positive. -/
def computeTotalDuration (cs : List Clip) : ℚ :=
  let maxClipEnd := cs.foldl (fun m c => max m (c.start + c.duration)) 0
  if 0 < maxClipEnd then maxClipEnd else 30

/-- One frame of `App.animate` while the transport is playing, given the
elapsed wall time of the frame: returns the new `(currentTime, isPlaying)`. -/
def animateTick (isExporting : Bool) (totalDuration prevTime deltaTime : ℚ) : ℚ × Bool :=
  let next := prevTime + deltaTime
  if totalDuration ≤ next then
    if isExporting then (totalDuration, false) else (0, false)
  else (next, true)

/-- Observable state of an `HTMLMediaElement`: its local playback position and
whether it is paused. -/
structure MediaElemState where
  currentTime : ℚ
  paused : Bool
deriving DecidableEq, Repr

/-- What one pass of a synchronization effect does to one media element:
an optional assignment to `currentTime` (a force-seek) plus `play()` /
`pause()` calls. -/
structure SyncAction where
  seekTo : Option ℚ
  callPlay : Bool
  callPause : Bool
deriving DecidableEq, Repr

/-- Predicate `currentTime >= clip.start && currentTime < clip.start + clip.duration`,
the active-clip predicate used by both sync effects. -/
def isActiveAt (c : Clip) (t : ℚ) : Prop :=
  c.start ≤ t ∧ t < c.start + c.duration

instance (c : Clip) (t : ℚ) : Decidable (isActiveAt c t) :=
  inferInstanceAs (Decidable (_ ∧ _))

/-- The per-clip body of the audio-sync effect in `App`: seek-and-play when
active and playing but drifted beyond `0.2` or paused, pause when inactive or
transport not playing. -/
def audioSyncStep (c : Clip) (currentTime : ℚ) (isPlaying : Bool)
    (el : MediaElemState) : SyncAction :=
  if isActiveAt c currentTime ∧ isPlaying = true then
    let seekTime := (currentTime - c.start) + c.offset
    if 1/5 < |el.currentTime - seekTime| ∨ el.paused = true then
      { seekTo := some seekTime, callPlay := true, callPause := false }
    else
      { seekTo := none, callPlay := false, callPause := false }
  else
    if el.paused = false then
      { seekTo := none, callPlay := false, callPause := true }
    else
      { seekTo := none, callPlay := false, callPause := false }

/-- The body of the playback-synchronization effect in `Player`, for the
active video clip's element: while playing, force-seek only past `0.5` drift
and call `play()` if the element is paused; while the transport is paused,
pause the element and force-seek past `0.01` drift. -/
def videoSyncStep (c : Clip) (currentTime : ℚ) (isPlaying : Bool)
    (el : MediaElemState) : SyncAction :=
  let seekTime := (currentTime - c.start) + c.offset
  if isPlaying then
    { seekTo := if 1/2 < |el.currentTime - seekTime| then some seekTime else none
      callPlay := el.paused
      callPause := false }
  else
    { seekTo := if 1/100 < |el.currentTime - seekTime| then some seekTime else none
      callPlay := false
      callPause := true }

/-- Lookup `clips.find(...)` selecting the active video clip in `Player`: the first
clip in model order that is a video clip containing the position. -/
def findActiveVideoClip (cs : List Clip) (t : ℚ) : Option Clip :=
  cs.find? fun c => decide (c.kind = MediaKind.video ∧ isActiveAt c t)

/-- The Edit Engine operations that can run after a copy without touching the
clipboard slot (move / trim gestures, split, delete, clear-all, paste, add,
seek).  `copy` is deliberately not an `EditOp`: it is the one operation that
writes the clipboard. -/
inductive EditOp where
  | move (clipId : Nat) (deltaSeconds : ℚ)
  | trimStart (clipId : Nat) (deltaSeconds : ℚ)
  | trimEnd (clipId : Nat) (deltaSeconds : ℚ)
  | split
  | delete (clipId : Nat)
  | clearAll
  | paste
  | addClip (trackId : Nat) (kind : MediaKind) (fileName fileSource : String)
      (mediaDuration : ℚ) (w h : Option Nat)
  | seek (t : ℚ)
deriving Repr

/-- Dispatch of one Edit Engine operation on the editor state. -/
def applyOp (s : EditorState) : EditOp → EditorState
  | .move clipId δ => { s with clips := handleClipUpdate s.clips clipId (applyMove · δ) }
  | .trimStart clipId δ => { s with clips := handleClipUpdate s.clips clipId (applyTrimStart · δ) }
  | .trimEnd clipId δ => { s with clips := handleClipUpdate s.clips clipId (applyTrimEnd · δ) }
  | .split => handleSplitClip s
  | .delete clipId => handleDeleteClip s clipId
  | .clearAll => clearAllClips s
  | .paste => pasteClip s
  | .addClip trackId kind fileName fileSource mediaDuration w h =>
      addClipFromFile s trackId kind fileName fileSource mediaDuration w h
  | .seek t => { s with currentTime := t }

/-- State of the `MediaRecorder`: `inactive` before `start()` and after
`onstop`, `recording` after `start()`, `stopping` between an effective
`stop()` call and the `onstop` callback. -/
inductive RecorderState where
  | inactive
  | recording
  | stopping
deriving DecidableEq, Repr

/-- The export-relevant state of `App`: transport flags, playhead, timeline
duration, the recorder with its buffered chunks, the delivered artifacts, and
two history fields used to state the finalization property: the number of
effective `stop()` calls since the export began, and a log of
`(isExporting, isPlaying, currentTime, totalDuration)` observed at each
effective `stop()`. -/
structure ExportSystem where
  isPlaying : Bool
  isExporting : Bool
  currentTime : ℚ
  totalDuration : ℚ
  recorder : RecorderState
  chunks : List Nat
  artifacts : List (List Nat)
  stopsThisExport : Nat
  stopLog : List (Bool × Bool × ℚ × ℚ)
deriving Repr

/-- Events driving the export pipeline: `handleExport`'s synchronous part,
its settle timeout (recorder start + play), an animation tick, a
`dataavailable` chunk, the `onstop` callback, and a recomputation of the
timeline duration from a clip edit (always positive: the computed value is
either 30 or a clip end greater than 0). -/
inductive ExportEvent where
  | beginExport
  | settleStart
  | tick (deltaTime : ℚ)
  | chunk (d : Nat)
  | onstop
  | setTotal (q : ℚ)
deriving Repr

/-- Effect of one event, before the React effects run. -/
def applyEvent (s : ExportSystem) : ExportEvent → ExportSystem
  | .beginExport =>
      if s.isExporting then s
      else { s with isPlaying := false, currentTime := 0, isExporting := true,
                    chunks := [], stopsThisExport := 0 }
  | .settleStart =>
      if s.isExporting = true ∧ s.recorder = RecorderState.inactive then
        { s with recorder := RecorderState.recording, isPlaying := true }
      else s
  | .tick δ =>
      if s.isPlaying then
        let next := s.currentTime + δ
        if s.totalDuration ≤ next then
          if s.isExporting then
            { s with currentTime := s.totalDuration, isPlaying := false }
          else
            { s with currentTime := 0, isPlaying := false }
        else { s with currentTime := next }
      else s
  | .chunk d =>
      if s.recorder = RecorderState.recording ∨ s.recorder = RecorderState.stopping then
        { s with chunks := s.chunks ++ [d] }
      else s
  | .onstop =>
      if s.recorder = RecorderState.stopping then
        { s with artifacts := s.artifacts ++ [s.chunks],
                 isExporting := false, currentTime := 0,
                 recorder := RecorderState.inactive }
      else s
  | .setTotal q =>
      if 0 < q then { s with totalDuration := q } else s

/-- The watch-for-end-of-export effect of `App`, which React runs after every
commit: `if (isExporting && !isPlaying && currentTime >= totalDuration)
mediaRecorderRef.current?.stop()`.  `MediaRecorder.stop()` is effective only
while the recorder is recording; otherwise it is a no-op. -/
def checkFinalize (s : ExportSystem) : ExportSystem :=
  if s.isExporting = true ∧ s.isPlaying = false ∧ s.totalDuration ≤ s.currentTime then
    if s.recorder = RecorderState.recording then
      { s with recorder := RecorderState.stopping,
               stopsThisExport := s.stopsThisExport + 1,
               stopLog := s.stopLog ++
                 [(s.isExporting, s.isPlaying, s.currentTime, s.totalDuration)] }
    else s
  else s

/-- One scheduler step: the event, then the effects observing the committed
state. -/
def exportStep (s : ExportSystem) (e : ExportEvent) : ExportSystem :=
  checkFinalize (applyEvent s e)

/-- Initial state: stopped at 0, empty 30 s timeline, no export running. -/
def exportInit : ExportSystem :=
  { isPlaying := false, isExporting := false, currentTime := 0,
    totalDuration := 30, recorder := RecorderState.inactive,
    chunks := [], artifacts := [], stopsThisExport := 0, stopLog := [] }

/-- Run a sequence of events from the initial state. -/
def runExport (es : List ExportEvent) : ExportSystem :=
  es.foldl exportStep exportInit

/-- The clip invariants of the specification. -/
def ClipInv (c : Clip) : Prop :=
  1/10 ≤ c.duration ∧ 0 ≤ c.offset ∧ c.offset + c.duration ≤ c.totalDuration ∧ 0 ≤ c.start

instance (c : Clip) : Decidable (ClipInv c) :=
  inferInstanceAs (Decidable (_ ∧ _ ∧ _ ∧ _))

/-- Inductive invariant of the export pipeline, proved to hold in every
reachable state: the timeline duration is positive, the recorder records only
while exporting and playing, an effective `stop()` has happened exactly once
whenever the recorder is stopping and never more than once per export, and
every logged `stop()` was observed with export mode on, transport stopped,
and position exactly at the timeline duration. -/
def ExportInv (s : ExportSystem) : Prop :=
  0 < s.totalDuration ∧
  (s.recorder = RecorderState.recording →
    s.isExporting = true ∧ s.isPlaying = true ∧ s.stopsThisExport = 0) ∧
  (s.recorder = RecorderState.stopping →
    s.isExporting = true ∧ s.isPlaying = false ∧ s.stopsThisExport = 1) ∧
  (s.isExporting = true ∧ s.recorder = RecorderState.inactive → s.stopsThisExport = 0) ∧
  s.stopsThisExport ≤ 1 ∧
  (∀ e ∈ s.stopLog, e.1 = true ∧ e.2.1 = false ∧ e.2.2.1 = e.2.2.2)

/-- A 5 s video clip covering its whole source, as in the end-to-end split
scenario. -/
def demoClip : Clip :=
  { id := 1, trackId := 0, source := "blob:v", kind := .video,
    start := 0, duration := 5, offset := 0, totalDuration := 5,
    name := "demo.mp4", width := some 1280, height := some 720 }

/-- A second clip on the same timeline, used as an untouched bystander. -/
def demoClip2 : Clip :=
  { id := 2, trackId := 0, source := "blob:v2", kind := .video,
    start := 6, duration := 2, offset := 0, totalDuration := 4,
    name := "demo2.mp4", width := none, height := none }

/-- The clip of the trim-start over-drag scenario:
`{start:2, duration:4, offset:1}`. -/
def demoTrimClip : Clip :=
  { id := 3, trackId := 0, source := "blob:v3", kind := .video,
    start := 2, duration := 4, offset := 1, totalDuration := 6,
    name := "demo3.mp4", width := none, height := none }

/-- An audio clip active on `[0, 5)`. -/
def demoAudioClip : Clip :=
  { id := 4, trackId := 1, source := "blob:a", kind := .audio,
    start := 0, duration := 5, offset := 0, totalDuration := 5,
    name := "demo.mp3", width := none, height := none }

/-- A clip whose end lands exactly on the 30 s default timeline length. -/
def demoClip30 : Clip :=
  { id := 5, trackId := 0, source := "blob:v5", kind := .video,
    start := 0, duration := 30, offset := 0, totalDuration := 30,
    name := "demo30.mp4", width := none, height := none }

/-- Editor state with `demoClip` selected and the playhead at `0.06`,
inside the split guard band's blind spot. -/
def demoSplitState : EditorState :=
  { clips := [demoClip], selectedClipId := some 1, clipboard := none,
    currentTime := 3/50, nextId := 10 }

/-- Editor state with `demoClip` selected and the playhead at `2`, the
end-to-end split scenario. -/
def demoSplitStateValid : EditorState :=
  { clips := [demoClip], selectedClipId := some 1, clipboard := none,
    currentTime := 2, nextId := 10 }

/-- Editor state holding `demoClip` and `demoClip2` with `demoClip`
selected. -/
def demoEditState : EditorState :=
  { clips := [demoClip, demoClip2], selectedClipId := some 1, clipboard := none,
    currentTime := 1, nextId := 10 }

/-- Editor state with a clip already sitting in the clipboard slot and no
selection, ready for a paste at the playhead. -/
def demoPasteState : EditorState :=
  { clips := [demoClip2], selectedClipId := none, clipboard := some demoClip,
    currentTime := 7, nextId := 20 }

/-- A full export run: begin, settle (recorder start + play), one tick past
the 30 s end of the empty-timeline default, one flushed chunk. -/
def demoExportEvents : List ExportEvent :=
  [ExportEvent.beginExport, ExportEvent.settleStart,
   ExportEvent.tick 31, ExportEvent.chunk 7]

theorem le_foldl_max (l : List ℚ) (a : ℚ) : a ≤ l.foldl max a := by
  induction l generalizing a with
  | nil => exact le_refl a
  | cons x l ih => exact le_trans (le_max_left a x) (ih (max a x))

theorem mem_le_foldl_max (l : List ℚ) (a : ℚ) : ∀ x ∈ l, x ≤ l.foldl max a := by
  induction l generalizing a with
  | nil => intro x hx; cases hx
  | cons y l ih =>
    intro x hx
    rcases List.mem_cons.mp hx with rfl | h
    · exact le_trans (le_max_right a x) (le_foldl_max l (max a x))
    · exact ih (max a y) x h

theorem foldl_max_eq_or_mem (l : List ℚ) (a : ℚ) :
    l.foldl max a = a ∨ l.foldl max a ∈ l := by
  induction l generalizing a with
  | nil => left; rfl
  | cons x l ih =>
    rcases ih (max a x) with h | h
    · rcases le_total a x with hax | hxa
      · right
        rw [List.foldl_cons, h, max_eq_right hax]
        exact List.mem_cons_self x l
      · left
        rw [List.foldl_cons, h, max_eq_left hxa]
    · right
      exact List.mem_cons_of_mem x h

theorem snap_nonneg (x : ℚ) (hx : 0 ≤ x) : 0 ≤ snap x := by
  have hq : (0:ℚ) ≤ x / SNAP_GRID := div_nonneg hx (by norm_num [SNAP_GRID])
  have h1 : (0:ℤ) ≤ jsRound (x / SNAP_GRID) := by
    unfold jsRound
    exact Int.le_floor.mpr (by push_cast; linarith)
  have h2 : (0:ℚ) ≤ (jsRound (x / SNAP_GRID) : ℚ) := by exact_mod_cast h1
  unfold snap
  exact mul_nonneg h2 (by norm_num [SNAP_GRID])

/-- C3: TrimStart snaps the candidate start `originalStart + deltaTime` to the
grid, clamps the resulting delta with
`min (max finalDelta (-originalOffset)) (originalDuration - 0.1)`, and applies
`start += finalDelta`, `duration -= finalDelta`, `offset += finalDelta`,
keeping the trailing edge `start + duration` fixed; on
`{start:2, duration:4, offset:1}` with `deltaTime = -5` the result is
`{start:1, duration:5, offset:0}`. -/
theorem trimStart_spec (c : Clip) (δ : ℚ) :
    (applyTrimStart c δ).start
        = c.start + min (max (snap (c.start + δ) - c.start) (-c.offset)) (c.duration - 1/10) ∧
    (applyTrimStart c δ).duration
        = c.duration - min (max (snap (c.start + δ) - c.start) (-c.offset)) (c.duration - 1/10) ∧
    (applyTrimStart c δ).offset
        = c.offset + min (max (snap (c.start + δ) - c.start) (-c.offset)) (c.duration - 1/10) ∧
    (applyTrimStart c δ).start + (applyTrimStart c δ).duration = c.start + c.duration ∧
    applyTrimStart demoTrimClip (-5)
        = { demoTrimClip with start := 1, duration := 5, offset := 0 } := by
  refine ⟨rfl, rfl, rfl, ?_, ?_⟩
  · show c.start + _ + (c.duration - _) = c.start + c.duration
    ring
  · norm_num [applyTrimStart, snap, jsRound, SNAP_GRID, demoTrimClip, min_def, max_def]

/-- C4: TrimEnd computes `newDuration = max(0.1, snap(originalDuration +
deltaTime))`; it applies it when `offset + newDuration <= sourceTotalDuration`
and otherwise clamps the duration to `sourceTotalDuration - offset`, so
`offset + duration <= sourceTotalDuration` holds after the operation for every
requested delta. -/
theorem trimEnd_spec (c : Clip) (δ : ℚ) :
    (c.offset + max (1/10) (snap (c.duration + δ)) ≤ c.totalDuration →
        applyTrimEnd c δ = { c with duration := max (1/10) (snap (c.duration + δ)) }) ∧
    (¬ c.offset + max (1/10) (snap (c.duration + δ)) ≤ c.totalDuration →
        applyTrimEnd c δ = { c with duration := c.totalDuration - c.offset }) ∧
    (applyTrimEnd c δ).offset + (applyTrimEnd c δ).duration
        ≤ (applyTrimEnd c δ).totalDuration := by
  by_cases h : c.offset + max (1/10) (snap (c.duration + δ)) ≤ c.totalDuration
  · refine ⟨fun _ => ?_, fun hn => absurd h hn, ?_⟩
    · simp only [applyTrimEnd]
      rw [if_pos h]
    · simp only [applyTrimEnd]
      rw [if_pos h]
      exact h
  · refine ⟨fun hy => absurd hy h, fun _ => ?_, ?_⟩
    · simp only [applyTrimEnd]
      rw [if_neg h]
    · simp only [applyTrimEnd]
      rw [if_neg h]
      show c.offset + (c.totalDuration - c.offset) ≤ c.totalDuration
      linarith

theorem trimEnd_spec_witness :
    applyTrimEnd demoClip (-2) = { demoClip with duration := 3 } := by
  have h := (trimEnd_spec demoClip (-2)).1
      (by norm_num [demoClip, snap, jsRound, SNAP_GRID, max_def])
  rw [h]
  norm_num [demoClip, snap, jsRound, SNAP_GRID, max_def]

/-- C5: when a playback tick would advance the position to at or past the
timeline duration, playback stops; the position is held exactly at the
timeline duration while exporting and reset to 0 otherwise. -/
theorem transport_boundary_spec (total prev δ : ℚ) (h : total ≤ prev + δ) :
    animateTick true total prev δ = (total, false) ∧
    animateTick false total prev δ = (0, false) := by
  constructor <;> simp [animateTick, h]

theorem transport_boundary_witness :
    animateTick true 30 29 2 = (30, false) ∧ animateTick false 30 29 2 = (0, false) :=
  transport_boundary_spec 30 29 2 (by norm_num)

/-- C8: Move sets `start` to `max(0, originalStart + deltaTime)` rounded to
the nearest multiple of `Q = 0.02` (so the result differs from
`round(t/Q)*Q` for the requested time `t` by less than `1e-9` — exactly 0 in
exact arithmetic), changes no other field, and affects no other clip. -/
theorem move_spec (cs : List Clip) (clipId : Nat) (c : Clip) (δ : ℚ) :
    (applyMove c δ).start = (jsRound (max 0 (c.start + δ) / SNAP_GRID) : ℚ) * SNAP_GRID ∧
    |(applyMove c δ).start - (jsRound (max 0 (c.start + δ) / SNAP_GRID) : ℚ) * SNAP_GRID|
        < 1/1000000000 ∧
    (applyMove c δ).duration = c.duration ∧
    (applyMove c δ).offset = c.offset ∧
    (applyMove c δ).totalDuration = c.totalDuration ∧
    (applyMove c δ).id = c.id ∧
    (applyMove c δ).trackId = c.trackId ∧
    (applyMove c δ).kind = c.kind ∧
    (applyMove c δ).source = c.source ∧
    (applyMove c δ).name = c.name ∧
    (handleClipUpdate cs clipId (applyMove · δ)).length = cs.length ∧
    (∀ x ∈ cs, ¬ x.id = clipId → x ∈ handleClipUpdate cs clipId (applyMove · δ)) := by
  have h1 : (applyMove c δ).start
      = (jsRound (max 0 (c.start + δ) / SNAP_GRID) : ℚ) * SNAP_GRID := rfl
  refine ⟨h1, ?_, rfl, rfl, rfl, rfl, rfl, rfl, rfl, rfl, ?_, ?_⟩
  · rw [h1, sub_self, abs_zero]
    norm_num
  · simp [handleClipUpdate]
  · intro x hx hid
    simp only [handleClipUpdate]
    have hfx : (fun y : Clip => if y.id = clipId then applyMove y δ else y) x = x := by
      simp [hid]
    have hmem := List.mem_map_of_mem (fun y : Clip => if y.id = clipId then applyMove y δ else y) hx
    rw [hfx] at hmem
    exact hmem

theorem move_spec_witness :
    (applyMove demoClip 1).start = 1 ∧
    (applyMove demoClip 1).duration = demoClip.duration ∧
    demoClip2 ∈ handleClipUpdate [demoClip, demoClip2] 1 (applyMove · 1) := by
  obtain ⟨h1, _, h3, -, -, -, -, -, -, -, -, h12⟩ :=
    move_spec [demoClip, demoClip2] 1 demoClip 1
  refine ⟨?_, h3, h12 demoClip2 (by simp) (by norm_num [demoClip2])⟩
  rw [h1]
  norm_num [jsRound, SNAP_GRID, demoClip]

theorem clipInv_applyMove (c : Clip) (δ : ℚ) (hc : ClipInv c) : ClipInv (applyMove c δ) := by
  obtain ⟨hd, ho, hsum, _⟩ := hc
  exact ⟨hd, ho, hsum, snap_nonneg _ (le_max_left 0 _)⟩

theorem trimStart_bounded_inv (c : Clip) (δ : ℚ)
    (hd : 1/10 ≤ c.duration) (ho : 0 ≤ c.offset) :
    1/10 ≤ (applyTrimStart c δ).duration ∧
    0 ≤ (applyTrimStart c δ).offset ∧
    (applyTrimStart c δ).offset + (applyTrimStart c δ).duration = c.offset + c.duration ∧
    (applyTrimStart c δ).totalDuration = c.totalDuration ∧
    c.start - c.offset ≤ (applyTrimStart c δ).start := by
  have hub : min (max (snap (c.start + δ) - c.start) (-c.offset)) (c.duration - 1/10)
      ≤ c.duration - 1/10 := min_le_right _ _
  have hlb : -c.offset
      ≤ min (max (snap (c.start + δ) - c.start) (-c.offset)) (c.duration - 1/10) :=
    le_min (le_max_right _ _) (by linarith)
  have e1 : (applyTrimStart c δ).duration
      = c.duration - min (max (snap (c.start + δ) - c.start) (-c.offset)) (c.duration - 1/10) := rfl
  have e2 : (applyTrimStart c δ).offset
      = c.offset + min (max (snap (c.start + δ) - c.start) (-c.offset)) (c.duration - 1/10) := rfl
  have e3 : (applyTrimStart c δ).start
      = c.start + min (max (snap (c.start + δ) - c.start) (-c.offset)) (c.duration - 1/10) := rfl
  refine ⟨by rw [e1]; linarith, by rw [e2]; linarith, by rw [e1, e2]; ring, rfl,
    by rw [e3]; linarith⟩

theorem clipInv_applyTrimEnd (c : Clip) (δ : ℚ) (hc : ClipInv c) :
    ClipInv (applyTrimEnd c δ) := by
  obtain ⟨hd, ho, hsum, hst⟩ := hc
  by_cases h : c.offset + max (1/10) (snap (c.duration + δ)) ≤ c.totalDuration
  · have he : applyTrimEnd c δ = { c with duration := max (1/10) (snap (c.duration + δ)) } := by
      simp only [applyTrimEnd]
      rw [if_pos h]
    rw [he]
    exact ⟨le_max_left _ _, ho, by simpa using h, hst⟩
  · have he : applyTrimEnd c δ = { c with duration := c.totalDuration - c.offset } := by
      simp only [applyTrimEnd]
      rw [if_neg h]
    rw [he]
    refine ⟨?_, ho, ?_, hst⟩
    · show 1/10 ≤ c.totalDuration - c.offset
      linarith
    · show c.offset + (c.totalDuration - c.offset) ≤ c.totalDuration
      linarith

theorem handleClipUpdate_inv (cs : List Clip) (clipId : Nat) (f : Clip → Clip)
    (P : Clip → Prop)
    (hs : ∀ x ∈ cs, P x) (hf : ∀ x ∈ cs, P x → P (f x)) :
    ∀ x ∈ handleClipUpdate cs clipId f, P x := by
  intro x hx
  simp only [handleClipUpdate, List.mem_map] at hx
  obtain ⟨a, ha, rfl⟩ := hx
  by_cases h : a.id = clipId
  · simp only [if_pos h]
    exact hf a ha (hs a ha)
  · simp only [if_neg h]
    exact hs a ha

theorem findClip_mem (cs : List Clip) (clipId : Nat) (c : Clip)
    (h : findClip cs clipId = some c) : c ∈ cs :=
  List.mem_of_find?_eq_some h

theorem split_weak_inv (s : EditorState) (hs : ∀ x ∈ s.clips, ClipInv x) :
    ∀ x ∈ (handleSplitClip s).clips,
      1/20 < x.duration ∧ 0 ≤ x.offset ∧
      x.offset + x.duration ≤ x.totalDuration ∧ 0 ≤ x.start := by
  have weak : ∀ x ∈ s.clips,
      1/20 < x.duration ∧ 0 ≤ x.offset ∧
      x.offset + x.duration ≤ x.totalDuration ∧ 0 ≤ x.start := by
    intro x hx
    obtain ⟨hd, ho, hsum, hst⟩ := hs x hx
    exact ⟨by linarith, ho, hsum, hst⟩
  cases h1 : s.selectedClipId with
  | none => simpa only [handleSplitClip, h1] using weak
  | some selId =>
    cases h2 : findClip s.clips selId with
    | none => simpa only [handleSplitClip, h1, h2] using weak
    | some clip =>
      have hci := hs clip (findClip_mem _ _ _ h2)
      obtain ⟨hd, ho, hsum, hst⟩ := hci
      by_cases h3 : s.currentTime ≤ clip.start + 1/20 ∨
          clip.start + clip.duration - 1/20 ≤ s.currentTime
      · simp only [handleSplitClip, h1, h2]
        rw [if_pos h3]
        exact weak
      · push_neg at h3
        obtain ⟨hg1, hg2⟩ := h3
        simp only [handleSplitClip, h1, h2]
        rw [if_neg (by push_neg; exact ⟨hg1, hg2⟩)]
        intro x hx
        rcases List.mem_append.mp hx with hx | hx
        · exact weak x (List.mem_of_mem_filter hx)
        · rcases List.mem_cons.mp hx with rfl | hx
          · refine ⟨by show 1/20 < s.currentTime - clip.start; linarith,
              ho, ?_, hst⟩
            show clip.offset + (s.currentTime - clip.start) ≤ clip.totalDuration
            linarith
          · rcases List.mem_cons.mp hx with rfl | hx
            · refine ⟨?_, ?_, ?_, ?_⟩
              · show 1/20 < clip.duration - (s.currentTime - clip.start)
                linarith
              · show 0 ≤ clip.offset + (s.currentTime - clip.start)
                linarith
              · show clip.offset + (s.currentTime - clip.start) +
                    (clip.duration - (s.currentTime - clip.start)) ≤ clip.totalDuration
                linarith
              · show (0:ℚ) ≤ s.currentTime
                linarith
            · cases hx

theorem paste_inv (s : EditorState) (hs : ∀ x ∈ s.clips, ClipInv x)
    (ht : 0 ≤ s.currentTime)
    (hcb : ∀ x, s.clipboard = some x → ClipInv x) :
    ∀ x ∈ (pasteClip s).clips, ClipInv x := by
  cases h1 : s.clipboard with
  | none => simpa only [pasteClip, h1] using hs
  | some cb =>
    have hcbi := hcb cb h1
    simp only [pasteClip, h1]
    intro x hx
    rcases List.mem_append.mp hx with hx | hx
    · exact hs x hx
    · have hxe : x = { cb with id := s.nextId, start := pasteStart s } :=
        List.mem_singleton.mp hx
      subst hxe
      obtain ⟨hd, ho, hsum, _⟩ := hcbi
      refine ⟨hd, ho, hsum, ?_⟩
      show 0 ≤ pasteStart s
      unfold pasteStart
      cases h2 : s.selectedClipId.bind fun selId => findClip s.clips selId with
      | none => exact ht
      | some sel =>
        obtain ⟨i, -, hfind⟩ := Option.bind_eq_some.mp h2
        obtain ⟨hd2, -, -, hst2⟩ := hs sel (findClip_mem _ _ _ hfind)
        show 0 ≤ sel.start + sel.duration
        linarith

theorem maxClipEnd_nonneg (cs : List Clip)
    (h : ∀ x ∈ cs, 0 ≤ x.start + x.duration) :
    ∀ e, maxClipEnd? cs = some e → 0 ≤ e := by
  intro e he
  cases cs with
  | nil => simp [maxClipEnd?] at he
  | cons c cs =>
    simp only [maxClipEnd?, List.map_cons, Option.some.injEq] at he
    have hle := le_foldl_max (cs.map fun x => x.start + x.duration) (c.start + c.duration)
    have h0 := h c (List.mem_cons_self c cs)
    rw [← he]
    linarith

theorem addClip_inv (s : EditorState) (trackId : Nat) (kind : MediaKind)
    (fn fs : String) (m : ℚ) (w hgt : Option Nat)
    (hs : ∀ x ∈ s.clips, ClipInv x) (hm : 1/10 ≤ m) :
    ∀ x ∈ (addClipFromFile s trackId kind fn fs m w hgt).clips, ClipInv x := by
  intro x hx
  simp only [addClipFromFile] at hx
  rcases List.mem_append.mp hx with hx | hx
  · exact hs x hx
  · have hxe := List.mem_singleton.mp hx
    subst hxe
    refine ⟨le_min hm (by norm_num), le_refl 0,
      by rw [zero_add]; exact min_le_left m 10, ?_⟩
    show (0:ℚ) ≤ match maxClipEnd? (s.clips.filter fun c => c.trackId == trackId) with
      | some lastEnd => lastEnd + 1/2
      | none => 0
    have hends : ∀ x ∈ s.clips.filter fun c => c.trackId == trackId,
        0 ≤ x.start + x.duration := by
      intro x hx
      obtain ⟨hd, -, -, hst⟩ := hs x (List.mem_of_mem_filter hx)
      linarith
    cases h3 : maxClipEnd? (s.clips.filter fun c => c.trackId == trackId) with
    | none => exact le_refl 0
    | some lastEnd =>
      have h4 := maxClipEnd_nonneg _ hends lastEnd h3
      show (0:ℚ) ≤ lastEnd + 1/2
      linarith

/-- C1 (amended): starting from clips that satisfy the invariants, Move,
TrimEnd, Delete and Paste (with a nonnegative playhead and an
invariant-satisfying clipboard snapshot) preserve all four clip invariants,
and AddClip establishes them when the probed media duration is at least 0.1 s.
TrimStart guarantees `duration >= 0.1`, `offset >= 0` and
`offset + duration <= sourceTotalDuration` but only
`start >= originalStart - originalOffset`: the start can become negative when
the offset exceeds the start.  Split guarantees `offset >= 0`,
`offset + duration <= sourceTotalDuration` and `start >= 0` but only
`duration > 0.05` for each child: the 0.05 guard band does not enforce the
0.1 minimum duration. -/
theorem editOps_invariants_amended (c : Clip) (δ : ℚ) (s : EditorState)
    (clipId trackId : Nat) (kind : MediaKind) (fn fsrc : String) (m : ℚ)
    (w hgt : Option Nat)
    (hc : ClipInv c)
    (hs : ∀ x ∈ s.clips, ClipInv x)
    (ht : 0 ≤ s.currentTime)
    (hcb : ∀ x, s.clipboard = some x → ClipInv x)
    (hm : 1/10 ≤ m) :
    ClipInv (applyMove c δ) ∧
    ClipInv (applyTrimEnd c δ) ∧
    (1/10 ≤ (applyTrimStart c δ).duration ∧ 0 ≤ (applyTrimStart c δ).offset ∧
      (applyTrimStart c δ).offset + (applyTrimStart c δ).duration
        ≤ (applyTrimStart c δ).totalDuration ∧
      c.start - c.offset ≤ (applyTrimStart c δ).start) ∧
    (∀ x ∈ handleClipUpdate s.clips clipId (applyMove · δ), ClipInv x) ∧
    (∀ x ∈ handleClipUpdate s.clips clipId (applyTrimEnd · δ), ClipInv x) ∧
    (∀ x ∈ handleClipUpdate s.clips clipId (applyTrimStart · δ),
      1/10 ≤ x.duration ∧ 0 ≤ x.offset ∧ x.offset + x.duration ≤ x.totalDuration) ∧
    (∀ x ∈ (handleSplitClip s).clips,
      1/20 < x.duration ∧ 0 ≤ x.offset ∧
      x.offset + x.duration ≤ x.totalDuration ∧ 0 ≤ x.start) ∧
    (∀ x ∈ (handleDeleteClip s clipId).clips, ClipInv x) ∧
    (∀ x ∈ (pasteClip s).clips, ClipInv x) ∧
    (∀ x ∈ (addClipFromFile s trackId kind fn fsrc m w hgt).clips, ClipInv x) := by
  obtain ⟨hcd, hco, hcs, hcst⟩ := hc
  have htrim := trimStart_bounded_inv c δ hcd hco
  obtain ⟨p1, p2, p3, p4, p5⟩ := htrim
  refine ⟨clipInv_applyMove c δ ⟨hcd, hco, hcs, hcst⟩,
    clipInv_applyTrimEnd c δ ⟨hcd, hco, hcs, hcst⟩,
    ⟨p1, p2, by rw [p3, p4]; exact hcs, p5⟩, ?_, ?_, ?_,
    split_weak_inv s hs, ?_, paste_inv s hs ht hcb,
    addClip_inv s trackId kind fn fsrc m w hgt hs hm⟩
  · exact handleClipUpdate_inv s.clips clipId _ ClipInv hs
      (fun x _ hx => clipInv_applyMove x δ hx)
  · exact handleClipUpdate_inv s.clips clipId _ ClipInv hs
      (fun x _ hx => clipInv_applyTrimEnd x δ hx)
  · refine handleClipUpdate_inv s.clips clipId _
      (fun x => 1/10 ≤ x.duration ∧ 0 ≤ x.offset ∧ x.offset + x.duration ≤ x.totalDuration)
      (fun x hx => ?_) (fun x _ hx => ?_)
    · obtain ⟨h1, h2, h3, -⟩ := hs x hx
      exact ⟨h1, h2, h3⟩
    · obtain ⟨h1, h2, h3⟩ := hx
      obtain ⟨q1, q2, q3, q4, -⟩ := trimStart_bounded_inv x δ h1 h2
      exact ⟨q1, q2, by rw [q3, q4]; exact h3⟩
  · intro x hx
    simp only [handleDeleteClip] at hx
    exact hs x (List.mem_of_mem_filter hx)

/-- C1 counterexample: splitting a fully invariant-satisfying 5 s clip at
0.06 s — which the 0.05 guard band allows — produces a left child of duration
0.06 < 0.1, so the minimum-duration invariant does not survive Split. -/
theorem split_guard_band_breaks_min_duration :
    (∀ x ∈ demoSplitState.clips, ClipInv x) ∧
    (handleSplitClip demoSplitState).clips.map Clip.duration = [3/50, 247/50] ∧
    ¬ (1/10 ≤ (3/50 : ℚ)) := by
  refine ⟨?_, ?_, by norm_num⟩
  · intro x hx
    have hxe : x = demoClip := by simpa [demoSplitState] using hx
    subst hxe
    norm_num [ClipInv, demoClip]
  · norm_num [handleSplitClip, demoSplitState, findClip, List.find?, demoClip,
      List.filter]

theorem editOps_invariants_witness : ClipInv (applyMove demoClip 1) := by
  have hs : ∀ x ∈ demoEditState.clips, ClipInv x := by
    intro x hx
    simp only [demoEditState, List.mem_cons, List.not_mem_nil, or_false] at hx
    rcases hx with rfl | rfl
    · norm_num [ClipInv, demoClip]
    · norm_num [ClipInv, demoClip2]
  obtain ⟨h1, -⟩ := editOps_invariants_amended demoClip 1 demoEditState 1 0
    MediaKind.video "f.mp4" "blob:f" 5 none none
    (by norm_num [ClipInv, demoClip]) hs
    (by norm_num [demoEditState])
    (by intro x hx; simp [demoEditState] at hx)
    (by norm_num)
  exact h1

/-- C2: Split is a no-op (clip set and selection unchanged) unless the
playhead lies strictly within `(start + 0.05, start + duration - 0.05)`; when
valid it replaces the clip with two fresh-id children — the left keeping
`start`/`offset` with `duration = atTime - start`, the right with
`start = atTime`, `duration = original - (atTime - start)`,
`offset = original + (atTime - start)` — moves the selection to the right
child, and satisfies `left.duration + right.duration = original.duration` and
`right.offset - left.offset = left.duration`. -/
theorem split_spec (s : EditorState) (selId : Nat) (c : Clip)
    (hsel : s.selectedClipId = some selId)
    (hfind : findClip s.clips selId = some c)
    (hfresh : ∀ x ∈ s.clips, x.id < s.nextId) :
    ((s.currentTime ≤ c.start + 1/20 ∨ c.start + c.duration - 1/20 ≤ s.currentTime) →
        handleSplitClip s = s) ∧
    (c.start + 1/20 < s.currentTime → s.currentTime < c.start + c.duration - 1/20 →
      (handleSplitClip s).clips
          = (s.clips.filter fun x => ! (x.id == c.id)) ++
            [{ c with id := s.nextId, duration := s.currentTime - c.start },
             { c with
                id := s.nextId + 1
                start := s.currentTime
                duration := c.duration - (s.currentTime - c.start)
                offset := c.offset + (s.currentTime - c.start) }] ∧
      (handleSplitClip s).selectedClipId = some (s.nextId + 1) ∧
      s.nextId ∉ s.clips.map Clip.id ∧
      (s.nextId + 1) ∉ s.clips.map Clip.id ∧
      s.nextId ≠ s.nextId + 1 ∧
      (s.currentTime - c.start) + (c.duration - (s.currentTime - c.start)) = c.duration ∧
      (c.offset + (s.currentTime - c.start)) - c.offset = s.currentTime - c.start) := by
  constructor
  · intro hg
    simp only [handleSplitClip, hsel, hfind]
    rw [if_pos hg]
  · intro hg1 hg2
    have hng : ¬ (s.currentTime ≤ c.start + 1/20 ∨
        c.start + c.duration - 1/20 ≤ s.currentTime) := by
      push_neg
      exact ⟨hg1, hg2⟩
    refine ⟨?_, ?_, ?_, ?_, by omega, by ring, by ring⟩
    · simp only [handleSplitClip, hsel, hfind]
      rw [if_neg hng]
    · simp only [handleSplitClip, hsel, hfind]
      rw [if_neg hng]
    · intro hmem
      obtain ⟨x, hx, hid⟩ := List.mem_map.mp hmem
      have := hfresh x hx
      omega
    · intro hmem
      obtain ⟨x, hx, hid⟩ := List.mem_map.mp hmem
      have := hfresh x hx
      omega

theorem split_spec_witness :
    (handleSplitClip demoSplitStateValid).clips
        = [{ demoClip with id := 10, duration := 2 },
           { demoClip with id := 11, start := 2, duration := 3, offset := 2 }] ∧
    (handleSplitClip demoSplitStateValid).selectedClipId = some 11 := by
  have hfresh : ∀ x ∈ demoSplitStateValid.clips, x.id < demoSplitStateValid.nextId := by
    intro x hx
    have hxe : x = demoClip := by simpa [demoSplitStateValid] using hx
    subst hxe
    norm_num [demoClip, demoSplitStateValid]
  obtain ⟨e1, e2, -⟩ := (split_spec demoSplitStateValid 1 demoClip rfl rfl hfresh).2
    (by norm_num [demoClip, demoSplitStateValid])
    (by norm_num [demoClip, demoSplitStateValid])
  constructor
  · rw [e1]
    norm_num [demoSplitStateValid, demoClip, List.filter]
  · rw [e2]
    norm_num [demoSplitStateValid]

/-- C9 counterexample: a single clip ending exactly at 30 s makes the derived
timeline duration equal the 30 s default even though the clip set is
nonempty, so "equals the default exactly when no clips exist" fails in the
only-if direction. -/
theorem totalDuration_default_coincidence :
    computeTotalDuration [demoClip30] = 30 ∧ [demoClip30] ≠ ([] : List Clip) ∧
    0 ≤ demoClip30.start ∧ 0 < demoClip30.duration := by
  refine ⟨?_, by simp, by norm_num [demoClip30], by norm_num [demoClip30]⟩
  norm_num [computeTotalDuration, demoClip30, List.foldl, max_def]

/-- C9 (amended): the derived timeline duration is the 30 s default on an
empty clip set, and on a nonempty clip set (with `start >= 0` and
`duration > 0`) it is the maximum of `start + duration` over the clips — a
value that may coincide with 30 even though clips exist. -/
theorem totalDuration_spec :
    computeTotalDuration [] = 30 ∧
    ∀ cs : List Clip, cs ≠ [] → (∀ c ∈ cs, 0 ≤ c.start ∧ 0 < c.duration) →
      computeTotalDuration cs ∈ cs.map (fun c => c.start + c.duration) ∧
      ∀ c ∈ cs, c.start + c.duration ≤ computeTotalDuration cs := by
  constructor
  · norm_num [computeTotalDuration, List.foldl]
  · intro cs hne hpos
    have hmap : cs.foldl (fun m c => max m (c.start + c.duration)) 0
        = (cs.map fun c => c.start + c.duration).foldl max 0 := by
      rw [List.foldl_map]
    obtain ⟨c0, cs', rfl⟩ := List.exists_cons_of_ne_nil hne
    have hmem0 : c0.start + c0.duration
        ∈ (c0 :: cs').map fun c => c.start + c.duration :=
      List.mem_map_of_mem _ (List.mem_cons_self c0 cs')
    have hle0 := mem_le_foldl_max _ 0 _ hmem0
    have hpos0 : 0 < c0.start + c0.duration := by
      obtain ⟨h1, h2⟩ := hpos c0 (List.mem_cons_self c0 cs')
      linarith
    have hMpos : 0 < ((c0 :: cs').map fun c => c.start + c.duration).foldl max 0 := by
      linarith
    have hM : computeTotalDuration (c0 :: cs')
        = ((c0 :: cs').map fun c => c.start + c.duration).foldl max 0 := by
      simp only [computeTotalDuration, hmap]
      rw [if_pos hMpos]
    constructor
    · rw [hM]
      rcases foldl_max_eq_or_mem ((c0 :: cs').map fun c => c.start + c.duration) 0 with h | h
      · rw [h] at hMpos
        exact absurd hMpos (lt_irrefl 0)
      · exact h
    · intro c hc
      rw [hM]
      exact mem_le_foldl_max _ 0 _ (List.mem_map_of_mem _ hc)

theorem totalDuration_spec_witness :
    computeTotalDuration [demoClip] ∈ [demoClip].map (fun c => c.start + c.duration) ∧
    demoClip.start + demoClip.duration ≤ computeTotalDuration [demoClip] := by
  have hp : ∀ c ∈ [demoClip], 0 ≤ c.start ∧ 0 < c.duration := by
    intro c hc
    have hce : c = demoClip := by simpa using hc
    subst hce
    norm_num [demoClip]
  have h := totalDuration_spec.2 [demoClip] (by simp) hp
  exact ⟨h.1, h.2 demoClip (by simp)⟩

theorem applyOp_clipboard (s : EditorState) (op : EditOp) :
    (applyOp s op).clipboard = s.clipboard := by
  cases op with
  | move cid δ => rfl
  | trimStart cid δ => rfl
  | trimEnd cid δ => rfl
  | split =>
    show (handleSplitClip s).clipboard = s.clipboard
    cases h1 : s.selectedClipId with
    | none => simp only [handleSplitClip, h1]
    | some selId =>
      cases h2 : findClip s.clips selId with
      | none => simp only [handleSplitClip, h1, h2]
      | some clip =>
        simp only [handleSplitClip, h1, h2]
        by_cases h3 : s.currentTime ≤ clip.start + 1/20 ∨
            clip.start + clip.duration - 1/20 ≤ s.currentTime
        · rw [if_pos h3]
        · rw [if_neg h3]
  | delete cid => rfl
  | clearAll => rfl
  | paste =>
    show (pasteClip s).clipboard = s.clipboard
    cases h1 : s.clipboard with
    | none => simp only [pasteClip, h1]
    | some cb => simp only [pasteClip, h1]
  | addClip trackId kind fn fsrc m w hgt => rfl
  | seek t => rfl

theorem foldl_applyOp_clipboard (ops : List EditOp) (s : EditorState) :
    (ops.foldl applyOp s).clipboard = s.clipboard := by
  induction ops generalizing s with
  | nil => rfl
  | cons op ops ih => rw [List.foldl_cons, ih, applyOp_clipboard]

/-- C10: Copy stores a value snapshot: any sequence of later edit operations
(move, trim, split, delete, clear-all, paste, add, seek) leaves the clipboard
contents unchanged, and Paste creates a new clip whose `trackId`, `duration`,
`offset`, `sourceTotalDuration`, `source` and `name` equal the copied clip's
values at copy time, with a fresh id that becomes the selection. -/
theorem clipboard_snapshot_spec (s s' : EditorState) (ops : List EditOp)
    (selId : Nat) (c cb : Clip)
    (hsel : s.selectedClipId = some selId)
    (hfind : findClip s.clips selId = some c)
    (hcb : s'.clipboard = some cb)
    (hfresh : ∀ x ∈ s'.clips, x.id < s'.nextId) :
    (copyClip s).clipboard = some c ∧
    (ops.foldl applyOp (copyClip s)).clipboard = some c ∧
    (pasteClip s').clips = s'.clips ++ [{ cb with id := s'.nextId, start := pasteStart s' }] ∧
    (pasteClip s').selectedClipId = some s'.nextId ∧
    s'.nextId ∉ s'.clips.map Clip.id ∧
    ({ cb with id := s'.nextId, start := pasteStart s' }).trackId = cb.trackId ∧
    ({ cb with id := s'.nextId, start := pasteStart s' }).duration = cb.duration ∧
    ({ cb with id := s'.nextId, start := pasteStart s' }).offset = cb.offset ∧
    ({ cb with id := s'.nextId, start := pasteStart s' }).totalDuration = cb.totalDuration ∧
    ({ cb with id := s'.nextId, start := pasteStart s' }).source = cb.source ∧
    ({ cb with id := s'.nextId, start := pasteStart s' }).name = cb.name := by
  have h1 : (copyClip s).clipboard = some c := by
    simp only [copyClip, hsel, hfind]
  refine ⟨h1, ?_, ?_, ?_, ?_, rfl, rfl, rfl, rfl, rfl, rfl⟩
  · rw [foldl_applyOp_clipboard, h1]
  · simp only [pasteClip, hcb]
  · simp only [pasteClip, hcb]
  · intro hmem
    obtain ⟨x, hx, hid⟩ := List.mem_map.mp hmem
    have := hfresh x hx
    omega

theorem clipboard_snapshot_witness :
    ([EditOp.move 1 1, EditOp.split, EditOp.delete 1, EditOp.clearAll].foldl
        applyOp (copyClip demoEditState)).clipboard = some demoClip ∧
    (pasteClip demoPasteState).selectedClipId = some 20 := by
  have hfresh : ∀ x ∈ demoPasteState.clips, x.id < demoPasteState.nextId := by
    intro x hx
    have hxe : x = demoClip2 := by simpa [demoPasteState] using hx
    subst hxe
    norm_num [demoClip2, demoPasteState]
  have h := clipboard_snapshot_spec demoEditState demoPasteState
      [EditOp.move 1 1, EditOp.split, EditOp.delete 1, EditOp.clearAll] 1 demoClip demoClip
      rfl rfl rfl hfresh
  exact ⟨h.2.1, h.2.2.2.1⟩

/-- C7 counterexample: an active audio clip while the transport is paused is
simply paused — no 0.01 s-tolerance reseek is attempted even at 4 s of
drift. -/
theorem pausedAudioDrift_counterexample :
    isActiveAt demoAudioClip 1 ∧
    1/100 < |(5:ℚ) - ((1 - demoAudioClip.start) + demoAudioClip.offset)| ∧
    (audioSyncStep demoAudioClip 1 false { currentTime := 5, paused := true }).seekTo
        = none := by
  refine ⟨by norm_num [isActiveAt, demoAudioClip], ?_, ?_⟩
  · have h4 : (5:ℚ) - ((1 - demoAudioClip.start) + demoAudioClip.offset) = 4 := by
      norm_num [demoAudioClip]
    rw [h4, abs_of_nonneg (by norm_num : (0:ℚ) ≤ 4)]
    norm_num
  · simp [audioSyncStep]

theorem videoSyncStep_seekTo (c : Clip) (t : ℚ) (p : Bool) (el : MediaElemState) :
    (videoSyncStep c t p el).seekTo =
      if p = true then
        (if 1/2 < |el.currentTime - ((t - c.start) + c.offset)|
          then some ((t - c.start) + c.offset) else none)
      else
        (if 1/100 < |el.currentTime - ((t - c.start) + c.offset)|
          then some ((t - c.start) + c.offset) else none) := by
  cases p <;> rfl

theorem audioSyncStep_eval_active (c : Clip) (t : ℚ) (el : MediaElemState)
    (hact : isActiveAt c t) :
    audioSyncStep c t true el =
      if 1/5 < |el.currentTime - ((t - c.start) + c.offset)| ∨ el.paused = true then
        { seekTo := some ((t - c.start) + c.offset), callPlay := true, callPause := false }
      else { seekTo := none, callPlay := false, callPause := false } := by
  simp only [audioSyncStep]
  rw [if_pos (show isActiveAt c t ∧ True from ⟨hact, trivial⟩)]

theorem audioSyncStep_eval_stopped (c : Clip) (t : ℚ) (el : MediaElemState) :
    audioSyncStep c t false el =
      if el.paused = false then
        { seekTo := none, callPlay := false, callPause := true }
      else { seekTo := none, callPlay := false, callPause := false } := by
  simp only [audioSyncStep]
  rw [if_neg]
  intro hcond
  exact absurd hcond.2 (by simp)

/-- C7 (amended): while the transport is playing, an active audio element is
force-seeked exactly when drift exceeds 0.2 s or the element is paused, and
the video element is force-seeked exactly when drift exceeds 0.5 s (hence
only when it exceeds 0.2 s); while the transport is paused, the 0.01 s
tolerance governs only the video element — audio elements are paused with no
reseek regardless of drift. -/
theorem driftSync_spec (c : Clip) (t : ℚ) (el : MediaElemState) :
    (isActiveAt c t →
      ((audioSyncStep c t true el).seekTo = some ((t - c.start) + c.offset) ↔
        (1/5 < |el.currentTime - ((t - c.start) + c.offset)| ∨ el.paused = true))) ∧
    ((videoSyncStep c t true el).seekTo ≠ none →
        1/5 < |el.currentTime - ((t - c.start) + c.offset)|) ∧
    ((videoSyncStep c t true el).seekTo = some ((t - c.start) + c.offset) ↔
        1/2 < |el.currentTime - ((t - c.start) + c.offset)|) ∧
    ((videoSyncStep c t false el).seekTo = some ((t - c.start) + c.offset) ↔
        1/100 < |el.currentTime - ((t - c.start) + c.offset)|) ∧
    (audioSyncStep c t false el).seekTo = none ∧
    ((audioSyncStep c t false el).callPause = true ↔ el.paused = false) := by
  refine ⟨?_, ?_, ?_, ?_, ?_, ?_⟩
  · intro hact
    rw [audioSyncStep_eval_active c t el hact]
    by_cases h : 1/5 < |el.currentTime - ((t - c.start) + c.offset)| ∨ el.paused = true
    · rw [if_pos h]
      exact iff_of_true rfl h
    · rw [if_neg h]
      exact iff_of_false (by simp) h
  · intro hne
    rw [videoSyncStep_seekTo] at hne
    by_cases h : 1/2 < |el.currentTime - ((t - c.start) + c.offset)|
    · linarith
    · rw [if_pos rfl, if_neg h] at hne
      exact absurd rfl hne
  · rw [videoSyncStep_seekTo, if_pos rfl]
    by_cases h : 1/2 < |el.currentTime - ((t - c.start) + c.offset)|
    · rw [if_pos h]
      exact iff_of_true rfl h
    · rw [if_neg h]
      exact iff_of_false (by simp) h
  · rw [videoSyncStep_seekTo, if_neg (by simp : ¬ (false = true))]
    by_cases h : 1/100 < |el.currentTime - ((t - c.start) + c.offset)|
    · rw [if_pos h]
      exact iff_of_true rfl h
    · rw [if_neg h]
      exact iff_of_false (by simp) h
  · rw [audioSyncStep_eval_stopped]
    by_cases hp : el.paused = false
    · rw [if_pos hp]
    · rw [if_neg hp]
  · rw [audioSyncStep_eval_stopped]
    by_cases hp : el.paused = false
    · rw [if_pos hp]
      exact iff_of_true rfl hp
    · rw [if_neg hp]
      exact iff_of_false (by simp) hp

theorem driftSync_witness :
    (audioSyncStep demoAudioClip 1 true { currentTime := 5, paused := false }).seekTo
        = some 1 := by
  have h := (driftSync_spec demoAudioClip 1 { currentTime := 5, paused := false }).1
      (by norm_num [isActiveAt, demoAudioClip])
  have hd : (1:ℚ)/5 < |(5:ℚ) - ((1 - demoAudioClip.start) + demoAudioClip.offset)| := by
    have h4 : (5:ℚ) - ((1 - demoAudioClip.start) + demoAudioClip.offset) = 4 := by
      norm_num [demoAudioClip]
    rw [h4, abs_of_nonneg (by norm_num : (0:ℚ) ≤ 4)]
    norm_num
  have hseek := h.mpr (Or.inl hd)
  rw [hseek]
  norm_num [demoAudioClip]

theorem checkFinalize_of_inv (s : ExportSystem) (h : ExportInv s) :
    checkFinalize s = s := by
  obtain ⟨htot, hrec, hstop, hidle, hle, hlog⟩ := h
  unfold checkFinalize
  by_cases hc : s.isExporting = true ∧ s.isPlaying = false ∧
      s.totalDuration ≤ s.currentTime
  · rw [if_pos hc]
    by_cases hr : s.recorder = RecorderState.recording
    · obtain ⟨-, hp, -⟩ := hrec hr
      rw [hc.2.1] at hp
      exact absurd hp (by simp)
    · rw [if_neg hr]
  · rw [if_neg hc]

theorem exportInv_init : ExportInv exportInit := by
  refine ⟨by norm_num [exportInit], ?_, ?_, ?_, ?_, ?_⟩
  · intro hr
    exact absurd hr (by simp [exportInit])
  · intro hr
    exact absurd hr (by simp [exportInit])
  · intro hc
    rfl
  · exact Nat.zero_le 1
  · intro x hx
    exact absurd hx (by simp [exportInit])

theorem exportInv_step (s : ExportSystem) (e : ExportEvent) (h : ExportInv s) :
    ExportInv (exportStep s e) := by
  obtain ⟨htot, hrec, hstop, hidle, hle, hlog⟩ := h
  have hs' : ExportInv s := ⟨htot, hrec, hstop, hidle, hle, hlog⟩
  cases e with
  | beginExport =>
    by_cases hexp : s.isExporting = true
    · have ha : applyEvent s ExportEvent.beginExport = s := by
        simp only [applyEvent]
        rw [if_pos hexp]
      rw [exportStep, ha, checkFinalize_of_inv s hs']
      exact hs'
    · have hrecn : ¬ s.recorder = RecorderState.recording := fun hr => hexp (hrec hr).1
      have hstopn : ¬ s.recorder = RecorderState.stopping := fun hr => hexp (hstop hr).1
      have ha : applyEvent s ExportEvent.beginExport = { s with
          isPlaying := false
          currentTime := 0
          isExporting := true
          chunks := []
          stopsThisExport := 0 } := by
        simp only [applyEvent]
        rw [if_neg hexp]
      have hinv1 : ExportInv (applyEvent s ExportEvent.beginExport) := by
        rw [ha]
        exact ⟨htot, fun hr => absurd hr hrecn, fun hr => absurd hr hstopn,
          fun _ => rfl, Nat.zero_le 1, hlog⟩
      rw [exportStep, checkFinalize_of_inv _ hinv1]
      exact hinv1
  | settleStart =>
    by_cases hc : s.isExporting = true ∧ s.recorder = RecorderState.inactive
    · have ha : applyEvent s ExportEvent.settleStart = { s with
          recorder := RecorderState.recording
          isPlaying := true } := by
        simp only [applyEvent]
        rw [if_pos hc]
      have hz : s.stopsThisExport = 0 := hidle hc
      have hinv1 : ExportInv (applyEvent s ExportEvent.settleStart) := by
        rw [ha]
        refine ⟨htot, fun _ => ⟨hc.1, rfl, hz⟩, fun hr => absurd hr (by simp),
          fun hx => absurd hx.2 (by simp), hle, hlog⟩
      rw [exportStep, checkFinalize_of_inv _ hinv1]
      exact hinv1
    · have ha : applyEvent s ExportEvent.settleStart = s := by
        simp only [applyEvent]
        rw [if_neg hc]
      rw [exportStep, ha, checkFinalize_of_inv s hs']
      exact hs'
  | tick δ =>
    by_cases hp : s.isPlaying = true
    · by_cases hb : s.totalDuration ≤ s.currentTime + δ
      · by_cases hexp : s.isExporting = true
        · have ha : applyEvent s (ExportEvent.tick δ) = { s with
              currentTime := s.totalDuration
              isPlaying := false } := by
            simp only [applyEvent]
            rw [if_pos hp, if_pos hb, if_pos hexp]
          by_cases hr : s.recorder = RecorderState.recording
          · obtain ⟨-, -, hz⟩ := hrec hr
            have hfire : checkFinalize { s with
                currentTime := s.totalDuration
                isPlaying := false } = { s with
                currentTime := s.totalDuration
                isPlaying := false
                recorder := RecorderState.stopping
                stopsThisExport := s.stopsThisExport + 1
                stopLog := s.stopLog ++
                  [(s.isExporting, false, s.totalDuration, s.totalDuration)] } := by
              unfold checkFinalize
              rw [if_pos (⟨hexp, rfl, le_refl _⟩ :
                    s.isExporting = true ∧ (false : Bool) = false ∧
                    s.totalDuration ≤ s.totalDuration),
                  if_pos hr]
            rw [exportStep, ha, hfire]
            refine ⟨htot, fun hr2 => absurd hr2 (by simp),
              fun _ => ⟨hexp, rfl, by rw [hz]⟩,
              fun hx => absurd hx.2 (by simp), by rw [hz], ?_⟩
            intro x hx
            rcases List.mem_append.mp hx with hx | hx
            · exact hlog x hx
            · have hxe := List.mem_singleton.mp hx
              subst hxe
              exact ⟨hexp, rfl, rfl⟩
          · have hinv1 : ExportInv { s with
                currentTime := s.totalDuration
                isPlaying := false } := by
              refine ⟨htot, fun hr2 => absurd hr2 hr, fun hr2 => ?_,
                fun hx => hidle ⟨hx.1, hx.2⟩, hle, hlog⟩
              obtain ⟨h1, -, h3⟩ := hstop hr2
              exact ⟨h1, rfl, h3⟩
            rw [exportStep, ha, checkFinalize_of_inv _ hinv1]
            exact hinv1
        · have ha : applyEvent s (ExportEvent.tick δ) = { s with
              currentTime := 0
              isPlaying := false } := by
            simp only [applyEvent]
            rw [if_pos hp, if_pos hb, if_neg hexp]
          have hrecn : ¬ s.recorder = RecorderState.recording := fun hr => hexp (hrec hr).1
          have hstopn : ¬ s.recorder = RecorderState.stopping := fun hr => hexp (hstop hr).1
          have hinv1 : ExportInv { s with currentTime := 0, isPlaying := false } :=
            ⟨htot, fun hr => absurd hr hrecn, fun hr => absurd hr hstopn,
              fun hx => absurd hx.1 hexp, hle, hlog⟩
          rw [exportStep, ha, checkFinalize_of_inv _ hinv1]
          exact hinv1
      · have ha : applyEvent s (ExportEvent.tick δ) = { s with
            currentTime := s.currentTime + δ } := by
          simp only [applyEvent]
          rw [if_pos hp, if_neg hb]
        have hinv1 : ExportInv { s with currentTime := s.currentTime + δ } := by
          refine ⟨htot, hrec, fun hr => ?_, hidle, hle, hlog⟩
          obtain ⟨-, h2, -⟩ := hstop hr
          rw [hp] at h2
          exact absurd h2 (by simp)
        rw [exportStep, ha, checkFinalize_of_inv _ hinv1]
        exact hinv1
    · have ha : applyEvent s (ExportEvent.tick δ) = s := by
        simp only [applyEvent]
        rw [if_neg hp]
      rw [exportStep, ha, checkFinalize_of_inv s hs']
      exact hs'
  | chunk d =>
    by_cases hc : s.recorder = RecorderState.recording ∨ s.recorder = RecorderState.stopping
    · have ha : applyEvent s (ExportEvent.chunk d) = { s with chunks := s.chunks ++ [d] } := by
        simp only [applyEvent]
        rw [if_pos hc]
      have hinv1 : ExportInv { s with chunks := s.chunks ++ [d] } :=
        ⟨htot, hrec, hstop, hidle, hle, hlog⟩
      rw [exportStep, ha, checkFinalize_of_inv _ hinv1]
      exact hinv1
    · have ha : applyEvent s (ExportEvent.chunk d) = s := by
        simp only [applyEvent]
        rw [if_neg hc]
      rw [exportStep, ha, checkFinalize_of_inv s hs']
      exact hs'
  | onstop =>
    by_cases hr : s.recorder = RecorderState.stopping
    · have ha : applyEvent s ExportEvent.onstop = { s with
          artifacts := s.artifacts ++ [s.chunks]
          isExporting := false
          currentTime := 0
          recorder := RecorderState.inactive } := by
        simp only [applyEvent]
        rw [if_pos hr]
      have hinv1 : ExportInv { s with
          artifacts := s.artifacts ++ [s.chunks]
          isExporting := false
          currentTime := 0
          recorder := RecorderState.inactive } :=
        ⟨htot, fun h2 => absurd h2 (by simp), fun h2 => absurd h2 (by simp),
          fun hx => absurd hx.1 (by simp), hle, hlog⟩
      rw [exportStep, ha, checkFinalize_of_inv _ hinv1]
      exact hinv1
    · have ha : applyEvent s ExportEvent.onstop = s := by
        simp only [applyEvent]
        rw [if_neg hr]
      rw [exportStep, ha, checkFinalize_of_inv s hs']
      exact hs'
  | setTotal q =>
    by_cases hq : 0 < q
    · have ha : applyEvent s (ExportEvent.setTotal q) = { s with totalDuration := q } := by
        simp only [applyEvent]
        rw [if_pos hq]
      have hinv1 : ExportInv { s with totalDuration := q } :=
        ⟨hq, hrec, hstop, hidle, hle, hlog⟩
      rw [exportStep, ha, checkFinalize_of_inv _ hinv1]
      exact hinv1
    · have ha : applyEvent s (ExportEvent.setTotal q) = s := by
        simp only [applyEvent]
        rw [if_neg hq]
      rw [exportStep, ha, checkFinalize_of_inv s hs']
      exact hs'

/-- C6: along any event trace of the export system, every effective encoder
`stop()` was observed with export mode active, the transport stopped, and the
position exactly at the timeline duration; at most one effective stop occurs
per export, with exactly one whenever the recorder is stopping (the only
state from which `onstop` finalization can run); and `onstop` then assembles
the artifact from the buffered chunks in arrival order and exits export
mode. -/
theorem export_finalize_once (es : List ExportEvent) :
    (∀ x ∈ (runExport es).stopLog, x.1 = true ∧ x.2.1 = false ∧ x.2.2.1 = x.2.2.2) ∧
    (runExport es).stopsThisExport ≤ 1 ∧
    ((runExport es).recorder = RecorderState.stopping →
        (runExport es).stopsThisExport = 1) ∧
    ((runExport es).recorder = RecorderState.stopping →
      (exportStep (runExport es) ExportEvent.onstop).artifacts
          = (runExport es).artifacts ++ [(runExport es).chunks] ∧
      (exportStep (runExport es) ExportEvent.onstop).isExporting = false) := by
  have hfold : ∀ (l : List ExportEvent) (s : ExportSystem),
      ExportInv s → ExportInv (l.foldl exportStep s) := by
    intro l
    induction l with
    | nil => exact fun s hs => hs
    | cons e l ih => exact fun s hs => ih _ (exportInv_step s e hs)
  have hinv : ExportInv (runExport es) := hfold es exportInit exportInv_init
  obtain ⟨htot, hrec, hstop, hidle, hle, hlog⟩ := hinv
  refine ⟨hlog, hle, fun hr => (hstop hr).2.2, fun hr => ?_⟩
  have h1 : applyEvent (runExport es) ExportEvent.onstop = { runExport es with
      artifacts := (runExport es).artifacts ++ [(runExport es).chunks]
      isExporting := false
      currentTime := 0
      recorder := RecorderState.inactive } := by
    simp only [applyEvent]
    rw [if_pos hr]
  rw [exportStep, h1]
  unfold checkFinalize
  rw [if_neg ?_]
  · exact ⟨rfl, rfl⟩
  · intro hcond
    exact absurd hcond.1 (by simp)

theorem export_finalize_once_witness :
    (runExport demoExportEvents).stopsThisExport = 1 ∧
    (runExport demoExportEvents).stopsThisExport ≤ 1 ∧
    (exportStep (runExport demoExportEvents) ExportEvent.onstop).isExporting = false := by
  have h := export_finalize_once demoExportEvents
  have hrec : (runExport demoExportEvents).recorder = RecorderState.stopping := by
    norm_num [runExport, demoExportEvents, exportStep, applyEvent, checkFinalize,
      exportInit, List.foldl]
    rw [if_neg (by simp : ¬ (RecorderState.stopping = RecorderState.recording))]
  exact ⟨h.2.2.1 hrec, h.2.1, (h.2.2.2 hrec).2⟩

end EditVideoAudio
